import Mathlib

/-!
Verification of the Function-Cooldowns admission-control engine.

Shallow embedding conventions:
- `datetime.datetime` values are modelled as integer microseconds since the
  epoch (Python datetimes have microsecond resolution); `time_period` seconds
  are likewise held in microseconds, so `timedelta(seconds=p)` is plain
  addition.
- `asyncio.Queue` (used strictly FIFO via `put_nowait` / `get_nowait` and
  peeks at `_queue[0]` / `_queue[-1]`) is modelled as a `List` whose head is
  the front of the queue.
- Raising an exception before any mutation is modelled by a result
  constructor that carries the unchanged state.
-/

namespace FunctionCooldowns

/-- Model of `cooldowns.cooldown_times_per.CooldownTimesPer`: `limit`,
`time_period` (microseconds), `current`, and the FIFO `_next_reset` queue of
pending reset datetimes (microseconds, front = oldest). -/
structure CooldownTimesPer where
  limit : Int
  timePeriod : Int
  current : Int
  nextResetQ : List Int
  deriving Repr, DecidableEq

/-- `CooldownTimesPer.__init__`: `current = limit`, empty reset queue. -/
def CooldownTimesPer.new (limit timePeriod : Int) : CooldownTimesPer :=
  { limit := limit, timePeriod := timePeriod, current := limit, nextResetQ := [] }

/-- `CooldownTimesPer.next_reset`: peek the front of `_next_reset`
(`_queue[0]`), `None` if empty. -/
def CooldownTimesPer.next_reset (ctp : CooldownTimesPer) : Option Int :=
  ctp.nextResetQ.head?

/-- `CooldownTimesPer.fully_reset_at`: peek the back of `_next_reset`
(`_queue[-1]`), `None` if empty. -/
def CooldownTimesPer.fully_reset_at (ctp : CooldownTimesPer) : Option Int :=
  ctp.nextResetQ.getLast?

/-- `CooldownTimesPer.has_cooldown`: `self.current != self.limit`. -/
def CooldownTimesPer.has_cooldown (ctp : CooldownTimesPer) : Bool :=
  ctp.current != ctp.limit

/-- Result of `CooldownTimesPer.__aenter__`.  `onCooldown` models the
`CallableOnCooldown` raise: it happens before any mutation, so it carries the
unchanged state together with the exception's `resets_at` field
(`self.next_reset`, which may be `None`). -/
inductive AdmitResult where
  | ok (st : CooldownTimesPer)
  | onCooldown (st : CooldownTimesPer) (resetsAt : Option Int)
  deriving Repr, DecidableEq

/-- State after an admission attempt, whichever way it went. -/
def AdmitResult.state : AdmitResult → CooldownTimesPer
  | .ok st => st
  | .onCooldown st _ => st

/-- `CooldownTimesPer.__aenter__` at time `now`: if `current == 0` raise
`CallableOnCooldown(func, cooldown, next_reset)`; otherwise decrement
`current`, enqueue `utcnow() + timedelta(seconds=time_period)` and schedule
`_reset_invoke` after `time_period`. -/
def CooldownTimesPer.aenter (ctp : CooldownTimesPer) (now : Int) : AdmitResult :=
  if ctp.current = 0 then
    .onCooldown ctp ctp.next_reset
  else
    .ok { ctp with
          current := ctp.current - 1,
          nextResetQ := ctp.nextResetQ ++ [now + ctp.timePeriod] }

/-- `CallableOnCooldown.retry_after` (in microseconds): `0` if `now >
resets_at`, else `resets_at - now`. -/
def retry_after (resetsAt now : Int) : Int :=
  if now > resetsAt then 0 else resetsAt - now

/-- `CooldownTimesPer._reset_invoke`: return early when `current < 0` or
`current == limit`; otherwise increment `current` and pop the front of
`_next_reset`.  (When the queue is empty in the increment branch the Python
`get_nowait` raises `QueueEmpty` into the event loop *after* the increment;
the resulting object state — incremented `current`, empty queue — is what
`List.tail []  = []` yields here.) -/
def CooldownTimesPer.reset_invoke (ctp : CooldownTimesPer) : CooldownTimesPer :=
  if ctp.current < 0 then ctp
  else if ctp.current = ctp.limit then ctp
  else { ctp with current := ctp.current + 1, nextResetQ := ctp.nextResetQ.tail }

/-- The window invariant claimed by the spec: the pending-reset queue holds
one entry per outstanding call and `current` stays within `[0, limit]`. -/
def timesPerInv (ctp : CooldownTimesPer) : Prop :=
  (ctp.nextResetQ.length : Int) = ctp.limit - ctp.current
    ∧ 0 ≤ ctp.current ∧ ctp.current ≤ ctp.limit

instance (ctp : CooldownTimesPer) : Decidable (timesPerInv ctp) := by
  unfold timesPerInv; infer_instance

/-- `n` consecutive admission attempts at a fixed time `now`; `none` as soon
as one of them raises. -/
def admitN (now : Int) : Nat → CooldownTimesPer → Option CooldownTimesPer
  | 0, st => some st
  | n + 1, st =>
    match st.aenter now with
    | .ok st' => admitN now n st'
    | .onCooldown _ _ => none

lemma admitN_succeeds (now : Int) (k : Nat) :
    ∀ st : CooldownTimesPer, (k : Int) ≤ st.current →
      admitN now k st =
        some { st with
               current := st.current - k,
               nextResetQ := st.nextResetQ ++ List.replicate k (now + st.timePeriod) } := by
  induction k with
  | zero =>
    intro st _
    simp [admitN]
  | succ n ih =>
    intro st hk
    have hne : st.current ≠ 0 := by omega
    have h1 : (1 : Int) ≤ st.current := by omega
    simp only [admitN, CooldownTimesPer.aenter, if_neg hne]
    rw [ih _ (by simp; omega)]
    congr 1
    simp [List.replicate_succ]
    omega

lemma reset_invoke_le (st : CooldownTimesPer) (h : st.current ≤ st.limit) :
    st.reset_invoke.current ≤ st.reset_invoke.limit ∧ st.reset_invoke.limit = st.limit := by
  unfold CooldownTimesPer.reset_invoke
  split
  · exact ⟨h, rfl⟩
  · split
    · exact ⟨h, rfl⟩
    · refine ⟨?_, rfl⟩
      simp only
      omega

lemma iterate_reset_invoke_le (st : CooldownTimesPer) (n : Nat) (h : st.current ≤ st.limit) :
    (CooldownTimesPer.reset_invoke^[n] st).current ≤ st.limit := by
  induction n generalizing st with
  | zero => simpa using h
  | succ m ih =>
    rw [Function.iterate_succ_apply]
    have h1 := reset_invoke_le st h
    have := ih st.reset_invoke (h1.2 ▸ h1.1)
    omega

/-- C1: for every window with `limit = L ≥ 1` and any period, starting fresh
and with no time elapsing, the first `L` admission attempts all succeed, and
the `(L+1)`th raises `CallableOnCooldown` whose `resets_at` is the window's
`next_reset` — the earliest pending replenishment timestamp (all pending
entries are `≥` it) — and whose `retry_after` is `max 0 (resets_at - now)`. -/
theorem claim_C1_first_L_admit_then_reject (L : Nat) (p now : Int) (hL : 1 ≤ L) :
    ∃ stL : CooldownTimesPer,
      admitN now L (CooldownTimesPer.new L p) = some stL
      ∧ stL.current = 0
      ∧ stL.aenter now = .onCooldown stL stL.next_reset
      ∧ stL.next_reset = some (now + p)
      ∧ (∀ t ∈ stL.nextResetQ, now + p ≤ t)
      ∧ retry_after (now + p) now = max 0 ((now + p) - now) := by
  refine ⟨{ limit := L, timePeriod := p, current := 0,
            nextResetQ := List.replicate L (now + p) }, ?_, rfl, ?_, ?_, ?_, ?_⟩
  · have h := admitN_succeeds now L (CooldownTimesPer.new L p)
      (by simp [CooldownTimesPer.new])
    rw [h]
    simp [CooldownTimesPer.new]
  · simp [CooldownTimesPer.aenter]
  · unfold CooldownTimesPer.next_reset
    cases L with
    | zero => omega
    | succ m => simp [List.replicate_succ]
  · intro t ht
    simp only [List.eq_of_mem_replicate ht, le_refl]
  · unfold retry_after
    rcases le_or_lt 0 p with hp | hp
    · rw [if_neg (by omega)]
      omega
    · rw [if_pos (by omega)]
      omega

/-- C1 witness: concrete run with `L = 3`, `p = 7`, `now = 100`. -/
theorem claim_C1_first_L_admit_then_reject_witness :
    ∃ stL : CooldownTimesPer,
      admitN 100 3 (CooldownTimesPer.new 3 7) = some stL
      ∧ stL.current = 0
      ∧ stL.aenter 100 = .onCooldown stL stL.next_reset
      ∧ stL.next_reset = some (100 + 7)
      ∧ (∀ t ∈ stL.nextResetQ, 100 + 7 ≤ t)
      ∧ retry_after (100 + 7) 100 = max 0 ((100 + 7) - 100) :=
  claim_C1_first_L_admit_then_reject 3 7 100 (by decide)

/-- C2: `len(pendingResets) = limit - current ∧ 0 ≤ current ≤ limit` holds on
creation (for nonnegative limit) and is preserved by a successful admission,
by a rejected admission (which raises before mutating), and by every firing
of `_reset_invoke`. -/
theorem claim_C2_window_invariant (L p : Int) (hL : 0 ≤ L)
    (st : CooldownTimesPer) (now : Int) (h : timesPerInv st) :
    timesPerInv (CooldownTimesPer.new L p)
    ∧ timesPerInv (st.aenter now).state
    ∧ timesPerInv st.reset_invoke := by
  obtain ⟨hlen, hlow, hhigh⟩ := h
  refine ⟨⟨by simp [CooldownTimesPer.new], by simpa [CooldownTimesPer.new] using hL,
           by simp [CooldownTimesPer.new]⟩, ?_, ?_⟩
  · unfold CooldownTimesPer.aenter
    split
    · exact ⟨hlen, hlow, hhigh⟩
    · refine ⟨?_, by simp [AdmitResult.state]; omega, by simp [AdmitResult.state]; omega⟩
      simp [AdmitResult.state]
      omega
  · unfold CooldownTimesPer.reset_invoke
    split
    · exact ⟨hlen, hlow, hhigh⟩
    · split
      · exact ⟨hlen, hlow, hhigh⟩
      · rename_i h0 h1
        have hq : st.nextResetQ.length ≠ 0 := by omega
        refine ⟨?_, by simp; omega, by simp; omega⟩
        simp only [List.length_tail]
        omega

/-- C2 witness: invariant at a concrete window and the states reached from it. -/
theorem claim_C2_window_invariant_witness :
    timesPerInv (CooldownTimesPer.new 4 9)
    ∧ timesPerInv ((CooldownTimesPer.mk 2 5 1 [105]).aenter 100).state
    ∧ timesPerInv (CooldownTimesPer.mk 2 5 1 [105]).reset_invoke :=
  claim_C2_window_invariant 4 9 (by decide) (CooldownTimesPer.mk 2 5 1 [105]) 100
    (by decide)

/-- C4: `_reset_invoke` increments `current` and pops the oldest pending
reset only when `0 ≤ current < limit` (any change at all implies the guard
held), and therefore arbitrarily many firings — duplicate or stale ones
included — never push `current` above `limit`. -/
theorem claim_C4_reset_guard_no_overfill (st : CooldownTimesPer) (n : Nat)
    (h : st.current ≤ st.limit) :
    (CooldownTimesPer.reset_invoke^[n] st).current ≤ st.limit
    ∧ (0 ≤ st.current → st.current < st.limit →
        st.reset_invoke =
          { st with current := st.current + 1, nextResetQ := st.nextResetQ.tail })
    ∧ (st.reset_invoke ≠ st → 0 ≤ st.current ∧ st.current < st.limit) := by
  refine ⟨iterate_reset_invoke_le st n h, ?_, ?_⟩
  · intro h0 h1
    unfold CooldownTimesPer.reset_invoke
    rw [if_neg (by omega), if_neg (by omega)]
  · intro hne
    unfold CooldownTimesPer.reset_invoke at hne
    by_cases hc0 : st.current < 0
    · rw [if_pos hc0] at hne
      exact absurd rfl hne
    · rw [if_neg hc0] at hne
      by_cases hcl : st.current = st.limit
      · rw [if_pos hcl] at hne
        exact absurd rfl hne
      · omega

/-- C4 witness: concrete window with one outstanding call, two firings. -/
theorem claim_C4_reset_guard_no_overfill_witness :
    (CooldownTimesPer.reset_invoke^[2] (CooldownTimesPer.mk 3 5 1 [7, 9])).current ≤ 3
    ∧ (0 ≤ (1 : Int) → (1 : Int) < 3 →
        (CooldownTimesPer.mk 3 5 1 [7, 9]).reset_invoke =
          { CooldownTimesPer.mk 3 5 1 [7, 9] with
            current := 1 + 1, nextResetQ := [7, 9].tail })
    ∧ ((CooldownTimesPer.mk 3 5 1 [7, 9]).reset_invoke ≠ CooldownTimesPer.mk 3 5 1 [7, 9] →
        0 ≤ (1 : Int) ∧ (1 : Int) < 3) :=
  claim_C4_reset_guard_no_overfill (CooldownTimesPer.mk 3 5 1 [7, 9]) 2 (by decide)

/-- Model of `cooldowns.persistence.CTPState`: the serialized form of one
bucket window (`next_reset` holds epoch timestamps in queue order). -/
structure CTPState where
  limit : Int
  timePeriod : Int
  current : Int
  nextReset : List Int
  deriving Repr, DecidableEq

/-- The per-window part of `_pickle_cooldown`: the queue is drained and
rebuilt in order, so the snapshot records `current` and the pending epochs
exactly. -/
def pickleCTP (ctp : CooldownTimesPer) : CTPState :=
  { limit := ctp.limit, timePeriod := ctp.timePeriod,
    current := ctp.current, nextReset := ctp.nextResetQ }

/-- `cooldowns.persistence._check_expired`: `True` iff strictly in the past. -/
def check_expired (now time : Int) : Bool :=
  now > time

/-- The epoch loop of `_unpickle_cooldown`, threading the window being
rebuilt and the list of `loop.call_later` delays scheduled so far: an expired
epoch increments `current` and is dropped (no callback); a future epoch is
re-enqueued and a `_reset_invoke` callback is scheduled after
`epoch - now`. -/
def restoreEpochs (now : Int) :
    List Int → CooldownTimesPer → List Int → CooldownTimesPer × List Int
  | [], ctp, sched => (ctp, sched)
  | e :: rest, ctp, sched =>
    if check_expired now e then
      restoreEpochs now rest { ctp with current := ctp.current + 1 } sched
    else
      restoreEpochs now rest { ctp with nextResetQ := ctp.nextResetQ ++ [e] }
        (sched ++ [e - now])

/-- The per-bucket reconstruction done by `_unpickle_cooldown` at restore
time `now`: a fresh `CooldownTimesPer` with the stored limit/period gets
`current` overwritten from the state, then every recorded epoch is
reconciled.  Returns the rebuilt window and the scheduled callback delays. -/
def restoreCTP (s : CTPState) (now : Int) : CooldownTimesPer × List Int :=
  restoreEpochs now s.nextReset
    { limit := s.limit, timePeriod := s.timePeriod, current := s.current,
      nextResetQ := [] } []

lemma restoreEpochs_spec (now : Int) (epochs : List Int) :
    ∀ (ctp : CooldownTimesPer) (sched : List Int),
      restoreEpochs now epochs ctp sched =
        ({ ctp with
           current := ctp.current + (epochs.countP (fun e => check_expired now e) : Int),
           nextResetQ := ctp.nextResetQ ++ epochs.filter (fun e => !check_expired now e) },
         sched ++ (epochs.filter (fun e => !check_expired now e)).map (fun e => e - now)) := by
  induction epochs with
  | nil => intro ctp sched; simp [restoreEpochs]
  | cons e rest ih =>
    intro ctp sched
    by_cases he : check_expired now e
    · rw [restoreEpochs, if_pos he, ih]
      simp [List.countP_cons, he]
      omega
    · rw [restoreEpochs, if_neg he, ih]
      simp [List.countP_cons, List.filter_cons, he]

/-- C3: restoring a snapshotted window at time `now` keeps `limit` and
`timePeriod`, adds one unit of `current` per recorded epoch strictly in the
past (dropping it, with no scheduled callback), re-enqueues exactly the
not-yet-expired epochs in order, and schedules one callback per such epoch at
its remaining delay.  Consequently a window which satisfied the pending-reset
invariant when snapshotted and is restored after all its recorded resets have
passed comes back with `current = limit` and no pending resets. -/
theorem claim_C3_restore_reconciles_expired (s : CTPState) (now : Int)
    (src : CooldownTimesPer) (hsrc : timesPerInv src) :
    (restoreCTP s now).1.limit = s.limit
    ∧ (restoreCTP s now).1.timePeriod = s.timePeriod
    ∧ (restoreCTP s now).1.current =
        s.current + (s.nextReset.countP (fun e => check_expired now e) : Int)
    ∧ (restoreCTP s now).1.nextResetQ = s.nextReset.filter (fun e => !check_expired now e)
    ∧ (restoreCTP s now).2 =
        (s.nextReset.filter (fun e => !check_expired now e)).map (fun e => e - now)
    ∧ (s = pickleCTP src → (∀ e ∈ s.nextReset, now > e) →
        (restoreCTP s now).1.current = s.limit
        ∧ (restoreCTP s now).1.nextResetQ = []
        ∧ (restoreCTP s now).2 = []) := by
  have hspec := restoreEpochs_spec now s.nextReset
    { limit := s.limit, timePeriod := s.timePeriod, current := s.current,
      nextResetQ := [] } []
  unfold restoreCTP
  rw [hspec]
  refine ⟨rfl, rfl, rfl, by simp, by simp, ?_⟩
  intro hpk hall
  have hfilter : s.nextReset.filter (fun e => !check_expired now e) = [] := by
    rw [List.filter_eq_nil_iff]
    intro e he
    simp [check_expired, hall e he]
  have hcount : s.nextReset.countP (fun e => check_expired now e) = s.nextReset.length := by
    rw [List.countP_eq_length]
    intro e he
    simp [check_expired, hall e he]
  obtain ⟨hlen, _, _⟩ := hsrc
  have hcur : s.current = src.current := by rw [hpk]; rfl
  have hlim : s.limit = src.limit := by rw [hpk]; rfl
  have hq : s.nextReset = src.nextResetQ := by rw [hpk]; rfl
  refine ⟨?_, by simp [hfilter], by simp [hfilter]⟩
  simp only [hcount]
  rw [hcur, hlim, hq]
  omega

/-- C3 witness: a snapshot of a window with `limit = 3`, two pending resets,
restored after both have passed. -/
theorem claim_C3_restore_reconciles_expired_witness :
    ((restoreCTP (CTPState.mk 3 5 1 [7, 9]) 20).1.limit = 3
    ∧ (restoreCTP (CTPState.mk 3 5 1 [7, 9]) 20).1.timePeriod = 5
    ∧ (restoreCTP (CTPState.mk 3 5 1 [7, 9]) 20).1.current =
        1 + ([7, 9].countP (fun e => check_expired 20 e) : Int)
    ∧ (restoreCTP (CTPState.mk 3 5 1 [7, 9]) 20).1.nextResetQ =
        [7, 9].filter (fun e => !check_expired 20 e)
    ∧ (restoreCTP (CTPState.mk 3 5 1 [7, 9]) 20).2 =
        ([7, 9].filter (fun e => !check_expired 20 e)).map (fun e => e - 20)
    ∧ (CTPState.mk 3 5 1 [7, 9] = pickleCTP (CooldownTimesPer.mk 3 5 1 [7, 9]) →
        (∀ e ∈ [(7 : Int), 9], 20 > e) →
        (restoreCTP (CTPState.mk 3 5 1 [7, 9]) 20).1.current = 3
        ∧ (restoreCTP (CTPState.mk 3 5 1 [7, 9]) 20).1.nextResetQ = []
        ∧ (restoreCTP (CTPState.mk 3 5 1 [7, 9]) 20).2 = [])) :=
  claim_C3_restore_reconciles_expired (CTPState.mk 3 5 1 [7, 9]) 20
    (CooldownTimesPer.mk 3 5 1 [7, 9]) (by decide)

/-- Lookup in a Python `dict` modelled as an insertion-ordered association
list, probing with the given equality (Python compares the probe key against
stored keys with `==`). -/
def dictLookup {K V : Type} (eq : K → K → Bool) (k : K) : List (K × V) → Option V
  | [] => none
  | (k', v) :: rest => if eq k k' then some v else dictLookup eq k rest

/-- `del d[k]` on the association-list dict: removes the first (for a real
dict, only) entry whose key equals `k`. -/
def dictRemove {K V : Type} (eq : K → K → Bool) (k : K) : List (K × V) → List (K × V)
  | [] => []
  | (k', v) :: rest => if eq k k' then rest else (k', v) :: dictRemove eq k rest

/-- Model of `cooldowns.buckets._HashableArguments`: a wrapper around the
call's `*args` and `**kwargs`.  Argument values are modelled as integers and
keyword names as strings; `kwargs` keeps Python's dict insertion order. -/
structure HashableArguments where
  args : List Int
  kwargs : List (String × Int)
  deriving Repr, DecidableEq

/-- Python `dict.__eq__` on the kwargs mappings: equal iff they associate the
same keys with the same values, regardless of insertion order. -/
def pyDictEq (d1 d2 : List (String × Int)) : Bool :=
  d1.all (fun p => dictLookup (fun a b => a == b) p.1 d2 == some p.2)
    && d2.all (fun p => dictLookup (fun a b => a == b) p.1 d1 == some p.2)

/-- `_HashableArguments.__eq__`: same type, `self.args == other.args` and
`self.kwargs == other.kwargs` (tuple equality and dict equality). -/
def pyEq (k1 k2 : HashableArguments) : Bool :=
  decide (k1.args = k2.args) && pyDictEq k1.kwargs k2.kwargs

/-- A kwargs dict as Python can actually produce it: keyword names are
pairwise distinct. -/
def kwargsWF (h : HashableArguments) : Prop :=
  (h.kwargs.map Prod.fst).Nodup

instance (h : HashableArguments) : Decidable (kwargsWF h) := by
  unfold kwargsWF; infer_instance

/-- Model of the `cooldowns.buckets.CooldownBucket` enum. -/
inductive CooldownBucket where
  | all
  | args
  | kwargs
  deriving Repr, DecidableEq

/-- `Cooldown.get_bucket`: run `self._bucket.process(*args, **kwargs)` and
wrap the result in `_HashableArguments` according to the strategy
(`all` → `_HashableArguments(*data[0], **data[1])`,
`args` → `_HashableArguments(*data)`, `kwargs` → `_HashableArguments(**data)`). -/
def get_bucket (bucket : CooldownBucket) (args : List Int)
    (kwargs : List (String × Int)) : HashableArguments :=
  match bucket with
  | .all => { args := args, kwargs := kwargs }
  | .args => { args := args, kwargs := [] }
  | .kwargs => { args := [], kwargs := kwargs }

lemma pyDictEq_symm (d1 d2 : List (String × Int)) : pyDictEq d1 d2 = pyDictEq d2 d1 := by
  unfold pyDictEq
  exact Bool.and_comm _ _

lemma pyEq_symm (k1 k2 : HashableArguments) : pyEq k1 k2 = pyEq k2 k1 := by
  unfold pyEq
  rw [pyDictEq_symm]
  congr 1
  simp [eq_comm]

lemma dictLookup_mem {K V : Type} (eq : K → K → Bool) (k : K) (l : List (K × V)) (v : V)
    (h : dictLookup eq k l = some v) : ∃ k', (k', v) ∈ l ∧ eq k k' = true := by
  induction l with
  | nil => simp [dictLookup] at h
  | cons p rest ih =>
    obtain ⟨k', v'⟩ := p
    by_cases he : eq k k'
    · rw [dictLookup, if_pos he] at h
      injection h with hv
      subst hv
      exact ⟨k', List.mem_cons_self _ _, he⟩
    · rw [dictLookup, if_neg he] at h
      obtain ⟨k'', hk'', he''⟩ := ih h
      exact ⟨k'', List.mem_cons_of_mem _ hk'', he''⟩

lemma dictLookup_of_mem_nodup (k : String) (v : Int) (l : List (String × Int))
    (hmem : (k, v) ∈ l) (hnd : (l.map Prod.fst).Nodup) :
    dictLookup (fun a b => a == b) k l = some v := by
  induction l with
  | nil => simp at hmem
  | cons p rest ih =>
    obtain ⟨k', v'⟩ := p
    rcases List.mem_cons.mp hmem with hh | ht
    · obtain ⟨h1, h2⟩ := Prod.mk.injEq .. ▸ hh
      rw [dictLookup, if_pos (by simp [h1])]
      rw [h2]
    · have hk : k ≠ k' := by
        intro hkk
        have : k' ∈ rest.map Prod.fst := List.mem_map.mpr ⟨(k, v), ht, hkk⟩
        exact (List.nodup_cons.mp (by simpa using hnd)).1 this
      rw [dictLookup, if_neg (by simp [hk])]
      exact ih ht (List.nodup_cons.mp (by simpa using hnd)).2

/-- Under distinct keyword names, Python dict equality coincides with
pointwise agreement of the two mappings. -/
lemma pyDictEq_iff (d1 d2 : List (String × Int))
    (h1 : (d1.map Prod.fst).Nodup) (h2 : (d2.map Prod.fst).Nodup) :
    pyDictEq d1 d2 = true ↔
      ∀ s : String, dictLookup (fun a b => a == b) s d1 =
        dictLookup (fun a b => a == b) s d2 := by
  constructor
  · intro h s
    obtain ⟨hf, hb⟩ := Bool.and_eq_true .. ▸ h
    cases hv : dictLookup (fun a b => a == b) s d1 with
    | some v =>
      obtain ⟨k', hk', he⟩ := dictLookup_mem _ s d1 v hv
      have hs : s = k' := by simpa using he
      have := (List.all_eq_true.mp hf) (k', v) hk'
      simp only [beq_iff_eq] at this
      rw [hs, this]
    | none =>
      cases hw : dictLookup (fun a b => a == b) s d2 with
      | none => rfl
      | some w =>
        obtain ⟨k', hk', he⟩ := dictLookup_mem _ s d2 w hw
        have hs : s = k' := by simpa using he
        have := (List.all_eq_true.mp hb) (k', w) hk'
        simp only [beq_iff_eq] at this
        rw [hs] at hv
        rw [this] at hv
        simp at hv
  · intro h
    unfold pyDictEq
    refine Bool.and_eq_true .. ▸ ⟨List.all_eq_true.mpr ?_, List.all_eq_true.mpr ?_⟩
    · intro p hp
      have := dictLookup_of_mem_nodup p.1 p.2 d1 hp h1
      simp [← h p.1, this]
    · intro p hp
      have := dictLookup_of_mem_nodup p.1 p.2 d2 hp h2
      simp [h p.1, this]

lemma pyEq_refl (k : HashableArguments) (h : kwargsWF k) : pyEq k k = true := by
  unfold pyEq
  refine Bool.and_eq_true .. ▸ ⟨by simp, ?_⟩
  exact (pyDictEq_iff k.kwargs k.kwargs h h).mpr (fun _ => rfl)

/-- C8: two bucket keys are equal iff their positional tuples are equal and
their keyword mappings agree as mappings (insertion order irrelevant); under
`CooldownBucket.all` the keys derived from `(1,), {}` and `(1,), {"a": 2}`
are unequal, while under `CooldownBucket.args` they are equal. -/
theorem claim_C8_key_equality (k1 k2 : HashableArguments)
    (h1 : kwargsWF k1) (h2 : kwargsWF k2) :
    (pyEq k1 k2 = true ↔
      k1.args = k2.args ∧
        ∀ s : String, dictLookup (fun a b => a == b) s k1.kwargs =
          dictLookup (fun a b => a == b) s k2.kwargs)
    ∧ pyEq (get_bucket .all [1] []) (get_bucket .all [1] [("a", 2)]) = false
    ∧ pyEq (get_bucket .args [1] []) (get_bucket .args [1] [("a", 2)]) = true := by
  refine ⟨?_, by decide, by decide⟩
  unfold pyEq
  rw [Bool.and_eq_true, decide_eq_true_eq, pyDictEq_iff k1.kwargs k2.kwargs h1 h2]

/-- C8 witness: keys with the same kwargs in different insertion orders. -/
theorem claim_C8_key_equality_witness :
    (pyEq (HashableArguments.mk [3] [("a", 1), ("b", 2)])
          (HashableArguments.mk [3] [("b", 2), ("a", 1)]) = true ↔
      ([3] : List Int) = [3] ∧
        ∀ s : String, dictLookup (fun a b => a == b) s
            ([("a", 1), ("b", 2)] : List (String × Int)) =
          dictLookup (fun a b => a == b) s ([("b", 2), ("a", 1)] : List (String × Int)))
    ∧ pyEq (get_bucket .all [1] []) (get_bucket .all [1] [("a", 2)]) = false
    ∧ pyEq (get_bucket .args [1] []) (get_bucket .args [1] [("a", 2)]) = true :=
  claim_C8_key_equality (HashableArguments.mk [3] [("a", 1), ("b", 2)])
    (HashableArguments.mk [3] [("b", 2), ("a", 1)]) (by decide) (by decide)

/-- `cooldowns.utils.COOLDOWN_ID = Union[int, str]`. -/
abbrev COOLDOWN_ID := Sum Int String

/-- Model of `cooldowns.cooldown.Cooldown`: the rate-limit definition with
its lazily-populated bucket cache (a Python dict keyed by
`_HashableArguments`, modelled as an insertion-ordered association list). -/
structure Cooldown where
  limit : Int
  timePeriod : Int
  bucket : CooldownBucket
  cooldownId : Option COOLDOWN_ID
  pendingReset : Bool
  cache : List (HashableArguments × CooldownTimesPer)
  deriving Repr, DecidableEq

/-- `Cooldown.__init__`: empty cache, `pending_reset = False`. -/
def Cooldown.new (limit timePeriod : Int) (bucket : CooldownBucket)
    (cooldownId : Option COOLDOWN_ID) : Cooldown :=
  { limit := limit, timePeriod := timePeriod, bucket := bucket,
    cooldownId := cooldownId, pendingReset := false, cache := [] }

/-- The keyed branch of `Cooldown.clear`: look the bucket up and delete it
iff it is not tracking anything (`not has_cooldown`) or `force_evict`. -/
def clearBucketCache (b : HashableArguments) (forceEvict : Bool)
    (cache : List (HashableArguments × CooldownTimesPer)) :
    List (HashableArguments × CooldownTimesPer) :=
  match dictLookup pyEq b cache with
  | none => cache
  | some w =>
    if !w.has_cooldown || forceEvict then dictRemove pyEq b cache else cache

/-- The `bucket=None` branch of `Cooldown.clear`: iterate over a snapshot of
the cache's keys, applying the keyed clear to each. -/
def evictPass (forceEvict : Bool) (keys : List HashableArguments)
    (cache : List (HashableArguments × CooldownTimesPer)) :
    List (HashableArguments × CooldownTimesPer) :=
  keys.foldl (fun acc k => clearBucketCache k forceEvict acc) cache

/-- `Cooldown.clear(bucket, force_evict)`.  (The dead `bucket_key is None`
branch of the source loop, and the final `self._cache[None]` lookup that
always lands in `except KeyError: pass`, are no-ops: `None` is never a cache
key.) -/
def Cooldown.clear (c : Cooldown) (bucket : Option HashableArguments)
    (forceEvict : Bool) : Cooldown :=
  match bucket with
  | some b => { c with cache := clearBucketCache b forceEvict c.cache }
  | none => { c with cache := evictPass forceEvict (c.cache.map Prod.fst) c.cache }

/-- `Cooldown._get_cooldown_for_bucket`: returns the cached window, or — with
`raise_on_create` — raises `NonExistent` (modelled as `none`) instead of
creating; otherwise creates a fresh `CooldownTimesPer` and caches it. -/
def Cooldown.getCooldownForBucket (c : Cooldown) (b : HashableArguments)
    (raiseOnCreate : Bool) : Option CooldownTimesPer × Cooldown :=
  match dictLookup pyEq b c.cache with
  | some w => (some w, c)
  | none =>
    if raiseOnCreate then (none, c)
    else
      let w := CooldownTimesPer.new c.limit c.timePeriod
      (some w, { c with cache := c.cache ++ [(b, w)] })

/-- `Cooldown.remaining_calls`: derive the bucket key, look it up with
`raise_on_create=True`; `NonExistent` yields `self.limit`, otherwise the
window's `current`.  The second component is the cache state afterwards. -/
def Cooldown.remaining_calls (c : Cooldown) (args : List Int)
    (kwargs : List (String × Int)) : Int × Cooldown :=
  match c.getCooldownForBucket (get_bucket c.bucket args kwargs) true with
  | (none, c') => (c.limit, c')
  | (some w, c') => (w.current, c')

/-- Well-formedness a Python dict cache keyed by `_HashableArguments`
guarantees: stored keys are pairwise `__eq__`-distinct and each has distinct
keyword names. -/
def cacheWF (cache : List (HashableArguments × CooldownTimesPer)) : Prop :=
  (cache.map Prod.fst).Pairwise (fun a b => pyEq a b = false)
    ∧ ∀ k ∈ cache.map Prod.fst, kwargsWF k

instance (cache : List (HashableArguments × CooldownTimesPer)) :
    Decidable (cacheWF cache) := by
  unfold cacheWF; infer_instance

lemma clearBucketCache_cons_ne (k k₀ : HashableArguments) (w₀ : CooldownTimesPer)
    (f : Bool) (t : List (HashableArguments × CooldownTimesPer))
    (h : pyEq k k₀ = false) :
    clearBucketCache k f ((k₀, w₀) :: t) = (k₀, w₀) :: clearBucketCache k f t := by
  unfold clearBucketCache
  rw [dictLookup, if_neg (by simp [h])]
  cases hl : dictLookup pyEq k t with
  | none => simp
  | some w =>
    simp only
    split
    · rw [dictRemove, if_neg (by simp [h])]
    · rfl

lemma evictPass_cons (f : Bool) (ks : List HashableArguments)
    (k₀ : HashableArguments) (w₀ : CooldownTimesPer)
    (t : List (HashableArguments × CooldownTimesPer))
    (h : ∀ k ∈ ks, pyEq k k₀ = false) :
    evictPass f ks ((k₀, w₀) :: t) = (k₀, w₀) :: evictPass f ks t := by
  induction ks generalizing t with
  | nil => rfl
  | cons k ks' ih =>
    unfold evictPass
    simp only [List.foldl_cons]
    rw [clearBucketCache_cons_ne k k₀ w₀ f t (h k (List.mem_cons_self _ _))]
    exact ih _ (fun k' hk' => h k' (List.mem_cons_of_mem _ hk'))

lemma evictPass_filter (f : Bool)
    (cache : List (HashableArguments × CooldownTimesPer)) (hwf : cacheWF cache) :
    evictPass f (cache.map Prod.fst) cache =
      cache.filter (fun kv => kv.2.has_cooldown && !f) := by
  obtain ⟨hdist, hkw⟩ := hwf
  induction cache with
  | nil => rfl
  | cons p rest ih =>
    obtain ⟨k₀, w₀⟩ := p
    simp only [List.map_cons] at hdist hkw
    have hd := List.pairwise_cons.mp hdist
    have hrefl : pyEq k₀ k₀ = true := pyEq_refl k₀ (hkw k₀ (List.mem_cons_self _ _))
    have hstep : evictPass f (k₀ :: rest.map Prod.fst) ((k₀, w₀) :: rest) =
        evictPass f (rest.map Prod.fst) (clearBucketCache k₀ f ((k₀, w₀) :: rest)) := rfl
    have hlook : dictLookup pyEq k₀ ((k₀, w₀) :: rest) = some w₀ := by
      rw [dictLookup, if_pos hrefl]
    by_cases hcond : (!w₀.has_cooldown || f) = true
    · have hcc : clearBucketCache k₀ f ((k₀, w₀) :: rest) = rest := by
        unfold clearBucketCache
        rw [hlook]
        simp only [hcond, if_pos]
        rw [dictRemove, if_pos hrefl]
      rw [List.map_cons, hstep, hcc,
        ih hd.2 (fun k hk => hkw k (List.mem_cons_of_mem _ hk))]
      have hval : (w₀.has_cooldown && !f) = false := by
        revert hcond
        cases w₀.has_cooldown <;> cases f <;> simp
      rw [List.filter_cons, hval]
      simp
    · have hcc : clearBucketCache k₀ f ((k₀, w₀) :: rest) = (k₀, w₀) :: rest := by
        unfold clearBucketCache
        rw [hlook]
        simp only
        rw [if_neg hcond]
      have hne : ∀ k ∈ rest.map Prod.fst, pyEq k k₀ = false := by
        intro k hk
        rw [pyEq_symm]
        exact hd.1 k hk
      rw [List.map_cons, hstep, hcc, evictPass_cons f _ k₀ w₀ rest hne,
        ih hd.2 (fun k hk => hkw k (List.mem_cons_of_mem _ hk))]
      have hval : (w₀.has_cooldown && !f) = true := by
        revert hcond
        cases w₀.has_cooldown <;> cases f <;> simp
      rw [List.filter_cons, hval]
      simp

/-- C5: `Cooldown.clear` with a bucket key removes that window iff it has no
outstanding calls (`not has_cooldown`) or `force_evict` is set; an unforced
keyed clear never removes a window with `current < limit`; and `clear` with
no key applies exactly that rule to every cached entry (the survivors are the
entries still tracking a cooldown, unless forced). -/
theorem claim_C5_clear_eviction_rule (c : Cooldown) (b : HashableArguments)
    (f : Bool) (w : CooldownTimesPer) (hwf : cacheWF c.cache)
    (hb : dictLookup pyEq b c.cache = some w) :
    (c.clear (some b) f =
      if !w.has_cooldown || f then { c with cache := dictRemove pyEq b c.cache } else c)
    ∧ (w.current < w.limit → c.clear (some b) false = c)
    ∧ (c.clear none f).cache = c.cache.filter (fun kv => kv.2.has_cooldown && !f) := by
  refine ⟨?_, ?_, ?_⟩
  · have h1 : c.clear (some b) f = { c with cache := clearBucketCache b f c.cache } := rfl
    have h2 : clearBucketCache b f c.cache =
        if !w.has_cooldown || f then dictRemove pyEq b c.cache else c.cache := by
      unfold clearBucketCache
      rw [hb]
    by_cases hcond : (!w.has_cooldown || f) = true
    · rw [h1, h2, if_pos hcond, if_pos hcond]
    · rw [h1, h2, if_neg hcond, if_neg hcond]
  · intro hlt
    have h1 : c.clear (some b) false =
        { c with cache := clearBucketCache b false c.cache } := rfl
    rw [h1]
    unfold clearBucketCache
    rw [hb]
    have hw : w.has_cooldown = true := by
      unfold CooldownTimesPer.has_cooldown
      simp
      omega
    simp [hw]
  · have h1 : c.clear none f =
        { c with cache := evictPass f (c.cache.map Prod.fst) c.cache } := rfl
    rw [h1]
    exact evictPass_filter f c.cache hwf

/-- C5 witness: a cache holding one idle window and one window with an
outstanding call, cleared unforced. -/
theorem claim_C5_clear_eviction_rule_witness :
    ((Cooldown.mk 2 5 .all none false
        [(HashableArguments.mk [1] [], CooldownTimesPer.mk 2 5 1 [9]),
         (HashableArguments.mk [2] [], CooldownTimesPer.mk 2 5 2 [])]).clear
        (some (HashableArguments.mk [1] [])) false =
      if !(CooldownTimesPer.mk 2 5 1 [9]).has_cooldown || false then
        { Cooldown.mk 2 5 .all none false
            [(HashableArguments.mk [1] [], CooldownTimesPer.mk 2 5 1 [9]),
             (HashableArguments.mk [2] [], CooldownTimesPer.mk 2 5 2 [])] with
          cache := dictRemove pyEq (HashableArguments.mk [1] [])
            [(HashableArguments.mk [1] [], CooldownTimesPer.mk 2 5 1 [9]),
             (HashableArguments.mk [2] [], CooldownTimesPer.mk 2 5 2 [])] }
      else Cooldown.mk 2 5 .all none false
            [(HashableArguments.mk [1] [], CooldownTimesPer.mk 2 5 1 [9]),
             (HashableArguments.mk [2] [], CooldownTimesPer.mk 2 5 2 [])])
    ∧ ((CooldownTimesPer.mk 2 5 1 [9]).current < (CooldownTimesPer.mk 2 5 1 [9]).limit →
        (Cooldown.mk 2 5 .all none false
          [(HashableArguments.mk [1] [], CooldownTimesPer.mk 2 5 1 [9]),
           (HashableArguments.mk [2] [], CooldownTimesPer.mk 2 5 2 [])]).clear
          (some (HashableArguments.mk [1] [])) false =
        Cooldown.mk 2 5 .all none false
          [(HashableArguments.mk [1] [], CooldownTimesPer.mk 2 5 1 [9]),
           (HashableArguments.mk [2] [], CooldownTimesPer.mk 2 5 2 [])])
    ∧ ((Cooldown.mk 2 5 .all none false
          [(HashableArguments.mk [1] [], CooldownTimesPer.mk 2 5 1 [9]),
           (HashableArguments.mk [2] [], CooldownTimesPer.mk 2 5 2 [])]).clear
          none false).cache =
        [(HashableArguments.mk [1] [], CooldownTimesPer.mk 2 5 1 [9]),
         (HashableArguments.mk [2] [], CooldownTimesPer.mk 2 5 2 [])].filter
          (fun kv => kv.2.has_cooldown && !false) :=
  claim_C5_clear_eviction_rule
    (Cooldown.mk 2 5 .all none false
      [(HashableArguments.mk [1] [], CooldownTimesPer.mk 2 5 1 [9]),
       (HashableArguments.mk [2] [], CooldownTimesPer.mk 2 5 2 [])])
    (HashableArguments.mk [1] []) false (CooldownTimesPer.mk 2 5 1 [9])
    (by decide) (by decide)

/-- C6: `remaining_calls` returns `limit` when no window exists yet for the
derived bucket key, otherwise that window's `current`, and it leaves the
cache untouched (the `raise_on_create=True` lookup never creates a
window). -/
theorem claim_C6_remaining_calls_query (c : Cooldown) (args : List Int)
    (kwargs : List (String × Int)) :
    (c.remaining_calls args kwargs).2 = c
    ∧ (dictLookup pyEq (get_bucket c.bucket args kwargs) c.cache = none →
        (c.remaining_calls args kwargs).1 = c.limit)
    ∧ (∀ w, dictLookup pyEq (get_bucket c.bucket args kwargs) c.cache = some w →
        (c.remaining_calls args kwargs).1 = w.current) := by
  unfold Cooldown.remaining_calls Cooldown.getCooldownForBucket
  cases hl : dictLookup pyEq (get_bucket c.bucket args kwargs) c.cache with
  | none => exact ⟨rfl, fun _ => rfl, fun w hw => by simp at hw⟩
  | some w =>
    refine ⟨rfl, fun hnone => by simp at hnone, fun w' hw' => ?_⟩
    injection hw' with h
    rw [h]

/-- C6 witness: a query against a cooldown whose cache has one window,
with arguments that miss it. -/
theorem claim_C6_remaining_calls_query_witness :
    ((Cooldown.mk 3 5 .all none false
        [(HashableArguments.mk [7] [], CooldownTimesPer.mk 3 5 1 [9])]).remaining_calls
        [8] []).2 =
      Cooldown.mk 3 5 .all none false
        [(HashableArguments.mk [7] [], CooldownTimesPer.mk 3 5 1 [9])]
    ∧ (dictLookup pyEq (get_bucket .all [8] [])
          [(HashableArguments.mk [7] [], CooldownTimesPer.mk 3 5 1 [9])] = none →
        ((Cooldown.mk 3 5 .all none false
            [(HashableArguments.mk [7] [], CooldownTimesPer.mk 3 5 1 [9])]).remaining_calls
            [8] []).1 = 3)
    ∧ (∀ w, dictLookup pyEq (get_bucket .all [8] [])
          [(HashableArguments.mk [7] [], CooldownTimesPer.mk 3 5 1 [9])] = some w →
        ((Cooldown.mk 3 5 .all none false
            [(HashableArguments.mk [7] [], CooldownTimesPer.mk 3 5 1 [9])]).remaining_calls
            [8] []).1 = w.current) :=
  claim_C6_remaining_calls_query
    (Cooldown.mk 3 5 .all none false
      [(HashableArguments.mk [7] [], CooldownTimesPer.mk 3 5 1 [9])]) [8] []

/-- `cooldowns.utils.shared_cooldown_refs`: the process-wide registry dict
from cooldown ids to `Cooldown` objects. -/
abbrev SharedRegistry := List (COOLDOWN_ID × Cooldown)

/-- Python `==` on `Union[int, str]` ids (an int never equals a str). -/
def idEq (a b : COOLDOWN_ID) : Bool :=
  decide (a = b)

/-- Outcome of `define_shared_cooldown`. -/
inductive DefineResult where
  | alreadyExists
  | ok
  deriving Repr, DecidableEq

/-- `cooldowns.utils.define_shared_cooldown`: raise `CooldownAlreadyExists`
when the id is already registered (before touching anything); otherwise build
a `Cooldown` with the given configuration and register it.  (The
`Cooldown.__init__` side write and the explicit
`shared_cooldown_refs[cooldown_id] = cooldown` store the same binding, so the
net effect is one new entry.) -/
def define_shared_cooldown (reg : SharedRegistry) (limit timePeriod : Int)
    (bucket : CooldownBucket) (cooldownId : COOLDOWN_ID) :
    DefineResult × SharedRegistry :=
  if (dictLookup idEq cooldownId reg).isSome then (.alreadyExists, reg)
  else (.ok, reg ++ [(cooldownId, Cooldown.new limit timePeriod bucket (some cooldownId))])

/-- `cooldowns.utils.get_shared_cooldown`: `shared_cooldown_refs.get(id)`,
raising `NonExistent` when the result is falsy.  `Cooldown` objects define no
`__bool__`/`__len__` and are always truthy, so the falsy case is exactly the
missing-key case. -/
def get_shared_cooldown (reg : SharedRegistry) (cooldownId : COOLDOWN_ID) :
    Except Unit Cooldown :=
  match dictLookup idEq cooldownId reg with
  | none => .error ()
  | some cd => .ok cd

/-- C9: `define_shared_cooldown` raises `CooldownAlreadyExists` iff the id is
already registered, leaving the registry unchanged in that case and otherwise
appending exactly the new cooldown; `get_shared_cooldown` raises
`NonExistent` iff no cooldown is registered under the id, and otherwise
returns the registered object itself. -/
theorem claim_C9_shared_registry (reg : SharedRegistry) (cooldownId : COOLDOWN_ID)
    (limit timePeriod : Int) (bucket : CooldownBucket) :
    ((dictLookup idEq cooldownId reg).isSome →
      define_shared_cooldown reg limit timePeriod bucket cooldownId =
        (.alreadyExists, reg))
    ∧ (dictLookup idEq cooldownId reg = none →
      define_shared_cooldown reg limit timePeriod bucket cooldownId =
        (.ok, reg ++ [(cooldownId, Cooldown.new limit timePeriod bucket (some cooldownId))]))
    ∧ (get_shared_cooldown reg cooldownId = .error () ↔
        dictLookup idEq cooldownId reg = none)
    ∧ (∀ cd, dictLookup idEq cooldownId reg = some cd →
        get_shared_cooldown reg cooldownId = .ok cd) := by
  refine ⟨?_, ?_, ?_, ?_⟩
  · intro h
    unfold define_shared_cooldown
    rw [if_pos h]
  · intro h
    unfold define_shared_cooldown
    rw [if_neg (by simp [h])]
  · unfold get_shared_cooldown
    cases h : dictLookup idEq cooldownId reg with
    | none => simp
    | some cd => simp
  · intro cd h
    unfold get_shared_cooldown
    rw [h]

/-- C9 witness: registry holding id `"x"`, queried for `"x"` (present) after
a redefinition attempt. -/
theorem claim_C9_shared_registry_witness :
    ((dictLookup idEq (.inr "x")
        [((.inr "x" : COOLDOWN_ID), Cooldown.new 1 5 .all (some (.inr "x")))]).isSome →
      define_shared_cooldown
        [((.inr "x" : COOLDOWN_ID), Cooldown.new 1 5 .all (some (.inr "x")))]
        2 9 .all (.inr "x") =
        (.alreadyExists,
          [((.inr "x" : COOLDOWN_ID), Cooldown.new 1 5 .all (some (.inr "x")))]))
    ∧ (dictLookup idEq (.inr "x")
        [((.inr "x" : COOLDOWN_ID), Cooldown.new 1 5 .all (some (.inr "x")))] = none →
      define_shared_cooldown
        [((.inr "x" : COOLDOWN_ID), Cooldown.new 1 5 .all (some (.inr "x")))]
        2 9 .all (.inr "x") =
        (.ok, [((.inr "x" : COOLDOWN_ID), Cooldown.new 1 5 .all (some (.inr "x")))] ++
          [((.inr "x" : COOLDOWN_ID), Cooldown.new 2 9 .all (some (.inr "x")))]))
    ∧ (get_shared_cooldown
        [((.inr "x" : COOLDOWN_ID), Cooldown.new 1 5 .all (some (.inr "x")))]
        (.inr "x") = .error () ↔
      dictLookup idEq (.inr "x")
        [((.inr "x" : COOLDOWN_ID), Cooldown.new 1 5 .all (some (.inr "x")))] = none)
    ∧ (∀ cd, dictLookup idEq (.inr "x")
        [((.inr "x" : COOLDOWN_ID), Cooldown.new 1 5 .all (some (.inr "x")))] = some cd →
      get_shared_cooldown
        [((.inr "x" : COOLDOWN_ID), Cooldown.new 1 5 .all (some (.inr "x")))]
        (.inr "x") = .ok cd) :=
  claim_C9_shared_registry
    [((.inr "x" : COOLDOWN_ID), Cooldown.new 1 5 .all (some (.inr "x")))]
    (.inr "x") 2 9 .all

/-- One day in microseconds (`datetime.timedelta(days=1)` on naive UTC
datetimes). -/
def DAY : Nat := 86400000000

/-- The `while repl <= current: repl = repl + timedelta(days=1)` loop of
`StaticTimesPer.next_datetime`. -/
def rollForward (current repl : Nat) : Nat :=
  if _h : repl ≤ current then rollForward current (repl + DAY) else repl
termination_by current + 1 - repl
decreasing_by
  have hD : 0 < DAY := by norm_num [DAY]
  omega

/-- `StaticTimesPer.next_datetime(current, time)`: `current.replace(hour=...,
minute=..., second=..., microsecond=...)` keeps the date and sets the
time-of-day — day-start plus `time` — then rolls forward by whole days while
not in the strict future. -/
def next_datetime (current t : Nat) : Nat :=
  rollForward current (current / DAY * DAY + t)

/-- Python `min` over a list; `none` models the `ValueError` on an empty
list. -/
def pyMin : List Nat → Option Nat
  | [] => none
  | x :: xs => some (xs.foldl min x)

/-- `StaticTimesPer.get_next_reset(now)`: minimum of
`next_datetime(now, t)` over the configured reset times. -/
def get_next_reset (resetTimes : List Nat) (now : Nat) : Option Nat :=
  pyMin (resetTimes.map (fun t => next_datetime now t))

/-- Model of `cooldowns.static_times_per.StaticTimesPer` (the inherited
`time_period` is unused: replenishments come from `reset_times`). -/
structure StaticTimesPer where
  limit : Int
  current : Int
  resetTimes : List Nat
  nextResetQ : List Nat
  deriving Repr, DecidableEq

/-- Result of `StaticTimesPer.__aenter__`; `ok` carries the delay handed to
`loop.call_later`, `valueError` models `min` over an empty `reset_times`. -/
inductive StaticAdmitResult where
  | ok (st : StaticTimesPer) (scheduledDelay : Nat)
  | onCooldown (st : StaticTimesPer) (resetsAt : Option Nat)
  | valueError
  deriving Repr, DecidableEq

/-- `StaticTimesPer.__aenter__` at time `now`: raise when exhausted, else
decrement `current`, enqueue `get_next_reset(now)` and schedule
`_reset_invoke` after `reset - now`. -/
def StaticTimesPer.aenter (st : StaticTimesPer) (now : Nat) : StaticAdmitResult :=
  if st.current = 0 then .onCooldown st st.nextResetQ.head?
  else
    match get_next_reset st.resetTimes now with
    | none => .valueError
    | some reset =>
      .ok { st with current := st.current - 1, nextResetQ := st.nextResetQ ++ [reset] }
        (reset - now)

lemma rollForward_closed (current repl : Nat) (h : current < repl + DAY) :
    rollForward current repl = if repl ≤ current then repl + DAY else repl := by
  by_cases h1 : repl ≤ current
  · rw [rollForward, dif_pos h1, rollForward, dif_neg (by omega), if_pos h1]
  · rw [rollForward, dif_neg h1, if_neg h1]

lemma next_datetime_closed (now t : Nat) :
    next_datetime now t =
      if now / DAY * DAY + t ≤ now then now / DAY * DAY + t + DAY
      else now / DAY * DAY + t := by
  unfold next_datetime
  have hmod := Nat.div_add_mod now DAY
  have hlt : now % DAY < DAY := Nat.mod_lt _ (by norm_num [DAY])
  refine rollForward_closed now _ ?_
  simp only [DAY] at *
  omega

lemma next_datetime_gt (now t : Nat) : now < next_datetime now t := by
  rw [next_datetime_closed]
  have hmod := Nat.div_add_mod now DAY
  have hlt : now % DAY < DAY := Nat.mod_lt _ (by norm_num [DAY])
  simp only [DAY] at *
  split <;> omega

lemma foldl_min_le (xs : List Nat) (a : Nat) :
    xs.foldl min a ≤ a ∧ ∀ x ∈ xs, xs.foldl min a ≤ x := by
  induction xs generalizing a with
  | nil => simp
  | cons y ys ih =>
    simp only [List.foldl_cons]
    obtain ⟨h1, h2⟩ := ih (min a y)
    refine ⟨le_trans h1 (min_le_left _ _), ?_⟩
    intro x hx
    rcases List.mem_cons.mp hx with rfl | hx'
    · exact le_trans h1 (min_le_right _ _)
    · exact h2 x hx'

lemma foldl_min_mem (xs : List Nat) (a : Nat) :
    xs.foldl min a = a ∨ xs.foldl min a ∈ xs := by
  induction xs generalizing a with
  | nil => simp
  | cons y ys ih =>
    simp only [List.foldl_cons]
    rcases ih (min a y) with h | h
    · rcases min_choice a y with hm | hm
      · left; rw [h, hm]
      · right; rw [h, hm]; exact List.mem_cons_self _ _
    · right; exact List.mem_cons_of_mem _ h

/-- C7: a successful `StaticTimesPer` admission enqueues and schedules the
minimum, over the configured times-of-day, of that time-of-day rolled forward
by one day when it has already passed today; the chosen reset is a candidate,
a lower bound of all candidates, and strictly in the future. -/
theorem claim_C7_static_next_reset (st : StaticTimesPer) (now : Nat)
    (hcur : st.current ≠ 0) (hne : st.resetTimes ≠ []) :
    ∃ r, st.aenter now =
        .ok { st with current := st.current - 1, nextResetQ := st.nextResetQ ++ [r] }
          (r - now)
      ∧ get_next_reset st.resetTimes now = some r
      ∧ (∀ t ∈ st.resetTimes, r ≤ next_datetime now t)
      ∧ (∃ t ∈ st.resetTimes, r = next_datetime now t)
      ∧ (∀ t ∈ st.resetTimes,
          next_datetime now t =
            if now / DAY * DAY + t ≤ now then now / DAY * DAY + t + DAY
            else now / DAY * DAY + t)
      ∧ now < r := by
  obtain ⟨L, cur, rts, q⟩ := st
  dsimp only at hcur hne ⊢
  obtain ⟨t₀, ts, rfl⟩ := List.exists_cons_of_ne_nil hne
  set cand := (ts.map (fun t => next_datetime now t)) with hcand
  have hmin : get_next_reset (t₀ :: ts) now = some (cand.foldl min (next_datetime now t₀)) := by
    unfold get_next_reset pyMin
    simp [hcand]
  refine ⟨cand.foldl min (next_datetime now t₀), ?_, hmin, ?_, ?_, ?_, ?_⟩
  · unfold StaticTimesPer.aenter
    rw [if_neg hcur, hmin]
  · intro t ht
    rcases List.mem_cons.mp ht with rfl | ht'
    · exact (foldl_min_le cand (next_datetime now t)).1
    · exact (foldl_min_le cand _).2 _ (List.mem_map_of_mem _ ht')
  · rcases foldl_min_mem cand (next_datetime now t₀) with h | h
    · exact ⟨t₀, List.mem_cons_self _ _, h⟩
    · obtain ⟨t, ht, hval⟩ := List.mem_map.mp (hcand ▸ h)
      exact ⟨t, List.mem_cons_of_mem _ ht, hval.symm⟩
  · intro t _
    exact next_datetime_closed now t
  · rcases foldl_min_mem cand (next_datetime now t₀) with h | h
    · rw [h]; exact next_datetime_gt now t₀
    · obtain ⟨t, _, hval⟩ := List.mem_map.mp (hcand ▸ h)
      rw [← hval]; exact next_datetime_gt now t

/-- C7 witness: one reset time of 01:00:00, admission at `now` = day 1
at 02:00. -/
theorem claim_C7_static_next_reset_witness :
    ∃ r, (StaticTimesPer.mk 2 1 [3600000000] []).aenter 93600000000 =
        .ok { StaticTimesPer.mk 2 1 [3600000000] [] with
              current := 1 - 1, nextResetQ := ([] : List Nat) ++ [r] }
          (r - 93600000000)
      ∧ get_next_reset [3600000000] 93600000000 = some r
      ∧ (∀ t ∈ [(3600000000 : Nat)], r ≤ next_datetime 93600000000 t)
      ∧ (∃ t ∈ [(3600000000 : Nat)], r = next_datetime 93600000000 t)
      ∧ (∀ t ∈ [(3600000000 : Nat)],
          next_datetime 93600000000 t =
            if 93600000000 / DAY * DAY + t ≤ 93600000000
            then 93600000000 / DAY * DAY + t + DAY
            else 93600000000 / DAY * DAY + t)
      ∧ 93600000000 < r := by
  have h := claim_C7_static_next_reset (StaticTimesPer.mk 2 1 [3600000000] [])
    93600000000 (by decide) (by decide)
  simpa using h

/-- Hashable Python objects appearing in `_HashableArguments.__hash__`:
integer argument values, keyword-name strings, and tuples. -/
inductive PyObj where
  | int : Int → PyObj
  | str : String → PyObj
  | tup : List PyObj → PyObj

/-- Modelled from CPython string hashing, which is siphash-based and
seed-randomized; the model is a deterministic order-sensitive fold over the
code points, reduced modulo `2^64`. -/
def strHash (s : String) : Int :=
  s.data.foldl (fun acc c => (acc * 31 + (c.toNat : Int)) % (2 ^ 64)) 7

mutual
/-- Modelled from CPython `hash()`: small ints hash to themselves, strings
via `strHash`, and tuples by an order-sensitive xxHash-style combination of
the element hashes (the order sensitivity is the property that matters
below). -/
def pyHash : PyObj → Int
  | .int n => n
  | .str s => strHash s
  | .tup xs => pyHashList xs 3430008

/-- Order-sensitive accumulation of element hashes for a tuple. -/
def pyHashList : List PyObj → Int → Int
  | [], acc => acc
  | x :: rest, acc => pyHashList rest ((acc * 1000003 + pyHash x) % (2 ^ 64))
end

/-- `hash(math.pi)` on 64-bit CPython, the constant returned for a key with
no args and no kwargs. -/
def mathPiHash : Int := 326490430436040707

/-- `_HashableArguments.__hash__`: the constant for an empty key; the hash of
the `args` tuple alone; the hash of the tuple of `(key, value)` kwargs pairs
*in insertion order*; or of the combined tuple `(*args, (key, value), ...)`. -/
def keyHash (k : HashableArguments) : Int :=
  if k.args = [] ∧ k.kwargs = [] then mathPiHash
  else if k.kwargs = [] then pyHash (.tup (k.args.map PyObj.int))
  else if k.args = [] then
    pyHash (.tup (k.kwargs.map (fun p => PyObj.tup [.str p.1, .int p.2])))
  else
    pyHash (.tup (k.args.map PyObj.int ++
      k.kwargs.map (fun p => PyObj.tup [.str p.1, .int p.2])))

/-- C10 fails on the code: `__eq__` compares kwargs as dicts (insertion order
irrelevant) while `__hash__` hashes the `(key, value)` pairs in insertion
order with an order-sensitive tuple hash, so the keys built from
`kwargs = {"a": 1, "b": 2}` and `kwargs = {"b": 2, "a": 1}` are equal yet
hash differently — equal keys need not hit the same cache entry. -/
theorem claim_C10_eq_consistent_hash_counterexample :
    pyEq (HashableArguments.mk [] [("a", 1), ("b", 2)])
        (HashableArguments.mk [] [("b", 2), ("a", 1)]) = true
    ∧ keyHash (HashableArguments.mk [] [("a", 1), ("b", 2)]) ≠
        keyHash (HashableArguments.mk [] [("b", 2), ("a", 1)]) := by
  constructor
  · decide
  · decide

end FunctionCooldowns
